import Mathlib

/-!
Shallow embedding of `coolbox/core/frame/base.py`: the Frame composition
algebra (`FrameBase.__add__` and `FrameBase.__mul__`), the frame mutation
helpers and the data fetch pipeline.

Python reference semantics is made explicit with a small heap: `Track`
objects and frame `properties` dicts live in the heap and are addressed by
index, so aliasing between frames that share them is observable.  The
concrete `Frame` subclass (`__copy__`, `add_track`), the `Track` mutators
(`append_coverage`, `pile_coverages`) and `coolbox.utilities`
(`GenomeRange`, `op_err_msg`) are declared or called here but defined
elsewhere; where a definition depends on them it is modelled from the
spec, as marked in its doc comment.
-/

namespace CoolBox

/-- A genome interval (`coolbox.utilities.GenomeRange`, used abstractly
by the frame code under verification): `chrom:start-stop`. -/
structure GenomeRange where
  chrom : String
  start : Nat
  stop : Nat
deriving DecidableEq

/-- A Python dict with string keys: an insertion-ordered association list
(Python guarantees unique keys; operations below preserve that). -/
abbrev PyDict (α : Type) := List (String × α)

/-- `d[k] = v` on a Python dict: an existing key keeps its position and
gets the new value, a fresh key is appended at the end. -/
def dictSet {α : Type} : PyDict α → String → α → PyDict α
  | [], k, v => [(k, v)]
  | p :: t, k, v => if p.1 = k then (k, v) :: t else p :: dictSet t k v

/-- `d.get(k)`: the binding of `k`, if any. -/
def dictGet {α : Type} : PyDict α → String → Option α
  | [], _ => none
  | p :: t, k => if p.1 = k then some p.2 else dictGet t k

/-- `d.update(e)` on Python dicts: write every binding of `e` into `d`
in order, so the right operand wins on key collision. -/
def dictUpdate {α : Type} (d e : PyDict α) : PyDict α :=
  e.foldl (fun acc p => dictSet acc p.1 p.2) d

abbrev PropMap := PyDict String

/-- The mutable state of a `Track` object: its `properties` dict, its
`coverages` list (coverage objects are opaque, identified by id), and its
optional `fetch_data` capability (`hasattr(track, 'fetch_data')`). -/
structure TrackData where
  properties : PropMap
  coverages : List Nat
  fetchCap : Option (GenomeRange → List String)

/-- Heap of mutable Python objects shared by reference: `Track` objects
and frame `properties` dicts, addressed by index.  Two frames holding the
same index alias the same mutable object. -/
structure Heap where
  tracks : List TrackData
  dicts : List PropMap

def defaultTrack : TrackData :=
  { properties := [], coverages := [], fetchCap := none }

def Heap.getTrack (h : Heap) (tid : Nat) : TrackData :=
  h.tracks.getD tid defaultTrack

def Heap.setTrack (h : Heap) (tid : Nat) (td : TrackData) : Heap :=
  { h with tracks := h.tracks.set tid td }

def Heap.getDict (h : Heap) (did : Nat) : PropMap :=
  h.dicts.getD did []

def Heap.setDict (h : Heap) (did : Nat) (d : PropMap) : Heap :=
  { h with dicts := h.dicts.set did d }

/-- A `Frame` (`FrameBase.__init__` plus the concrete track collection):
insertion-ordered mapping of track names to track object ids (`tracks`),
a reference to its `properties` dict in the heap, and the optional
`current_range`.  `nextIdx` drives the auto-generated track names
(spec section 4.4, "monotonically increasing"). -/
structure Frame where
  tracks : PyDict Nat
  propsId : Nat
  current_range : Option GenomeRange
  nextIdx : Nat
deriving DecidableEq

/-- Modelled from the spec: `Frame.__copy__` is not under `src/`; section 3
states composition results are built from "a shallow copy of the properties
mapping and track mapping references before mutation", so the copy
allocates a fresh `properties` dict holding the same bindings and a fresh
track mapping holding the same (name, track reference) entries. -/
def copyFrame (h : Heap) (f : Frame) : Heap × Frame :=
  ({ h with dicts := h.dicts ++ [h.getDict f.propsId] },
   { f with propsId := h.dicts.length })

/-- Modelled from the spec: `Frame.add_track` is abstract in `src/`
(section 4.4: "inserts at the end of the ordered track mapping;
auto-generates a unique name (`track_N`-style, monotonically increasing)
when none given").  The generated name is unique by the spec's invariant,
so the dict insertion is an append. -/
def Frame.add_track (f : Frame) (tid : Nat) : Frame :=
  { f with
    tracks := f.tracks ++ [("track_" ++ toString f.nextIdx, tid)],
    nextIdx := f.nextIdx + 1 }

/-- One step of a loop `for track in self.tracks.values(): <mutate track>`:
update the track object behind one (name, id) entry in the heap. -/
def setTrackWith (g : TrackData → TrackData) (h : Heap) (p : String × Nat) : Heap :=
  h.setTrack p.2 (g (h.getTrack p.2))

/-- `FrameBase.add_feature_to_tracks`:
`for track in self.tracks.values(): track.properties[feature.key] = feature.value`. -/
def add_feature_to_tracks (h : Heap) (f : Frame) (key value : String) : Heap :=
  f.tracks.foldl
    (setTrackWith (fun td => { td with properties := dictSet td.properties key value })) h

/-- `FrameBase.add_cov_to_tracks`:
`for track in self.tracks.values(): track.append_coverage(cov)`.
`Track.append_coverage` is not under `src/`; modelled from the spec
(section 4.4: "appends to every track's coverage list"). -/
def add_cov_to_tracks (h : Heap) (f : Frame) (cid : Nat) : Heap :=
  f.tracks.foldl
    (setTrackWith (fun td => { td with coverages := td.coverages ++ [cid] })) h

def missingRangeMsg : String := "Please specify a genome range like: chr1:1000-2000"

/-- The first two lines of `FrameBase.fetch_data`:
`if genome_range is None: genome_range = self.current_range`. -/
def resolveRange (f : Frame) (genome_range : Option GenomeRange) : Option GenomeRange :=
  match genome_range with
  | none => f.current_range
  | some g => some g

/-- `FrameBase.fetch_data`: resolve the range (explicit argument, else
`self.current_range`, else raise), then for each track in insertion order
call its fetch capability if present, else substitute `[]`, collecting an
ordered mapping from track name to fetched records. -/
def fetch_data (h : Heap) (f : Frame) (genome_range : Option GenomeRange) :
    Except String (PyDict (List String)) :=
  match resolveRange f genome_range with
  | none => .error missingRangeMsg
  | some gr =>
      .ok (f.tracks.foldl
        (fun acc p =>
          dictSet acc p.1
            (match (h.getTrack p.2).fetchCap with
             | some fetch => fetch gr
             | none => []))
        [])

/-- The runtime kinds the operators dispatch on via `isinstance`.
`other` stands for any object of a kind outside both dispatch tables
(e.g. the integer `42`), carrying its type name. -/
inductive Operand where
  | track (tid : Nat)
  | frame (f : Frame)
  | frameFeature (key value : String)
  | feature (key value : String)
  | coverage (cid : Nat)
  | coverageStack (cids : List Nat)
  | widgetsPanel (ref type_ : String)
  | other (kind : String)

def Operand.kindName : Operand → String
  | .track _ => "Track"
  | .frame _ => "Frame"
  | .frameFeature _ _ => "FrameFeature"
  | .feature _ _ => "Feature"
  | .coverage _ => "Coverage"
  | .coverageStack _ => "CoverageStack"
  | .widgetsPanel _ _ => "WidgetsPanel"
  | .other kind => kind

/-- Modelled from the spec: `coolbox.utilities.op_err_msg` is not under
`src/`; per sections 4.2 and 7 (and the doctest in `FrameBase.__add__`)
the error message names both operand kinds and the operator. -/
def op_err_msg (selfKind : String) (other : Operand) (op : String) : String :=
  "unsupported operand type(s) for " ++ op ++ ": '" ++ selfKind ++ "' and '"
    ++ other.kindName ++ "'"

/-- Outcome of `FrameBase.__add__`: a new Frame, a Browser
(`Browser(self, reference_genome=other.ref, widgets_box=other.type)`),
or a raised `TypeError`. -/
inductive AddResult where
  | frame (h : Heap) (f : Frame)
  | browser (h : Heap) (fr : Frame) (reference_genome : String) (widgets_box : String)
  | error (msg : String)

/-- Outcome of `FrameBase.__mul__`: a new Frame or a raised `TypeError`. -/
inductive MulResult where
  | frame (h : Heap) (f : Frame)
  | error (msg : String)

/-- `FrameBase.__add__`: copy `self`, then dispatch on the runtime kind of
`other`.  The `isinstance` chain checks `FrameFeature` before `Feature`
(`FrameFeature` is a `Feature` subclass).  `Track.pile_coverages` with
`pos='top'` is not under `src/`; modelled from the spec (section 4.2:
the stack's coverages are appended as a block, "top" meaning appended
last).  The `WidgetsPanel` branch wraps `self`, exactly as the source
does. -/
def combine (h : Heap) (self : Frame) (other : Operand) : AddResult :=
  let hr := copyFrame h self
  let h1 := hr.1
  let result := hr.2
  match other with
  | .track tid => .frame h1 (result.add_track tid)
  | .frame R =>
      let result2 := R.tracks.foldl (fun acc p => acc.add_track p.2) result
      .frame (h1.setDict result2.propsId
        (dictUpdate (h1.getDict result2.propsId) (h1.getDict R.propsId))) result2
  | .frameFeature key value =>
      .frame (h1.setDict result.propsId (dictSet (h1.getDict result.propsId) key value))
        result
  | .feature key value =>
      match result.tracks.getLast? with
      | some last =>
          .frame (setTrackWith
            (fun td => { td with properties := dictSet td.properties key value }) h1 last)
            result
      | none => .frame h1 result
  | .coverage cid =>
      match result.tracks.getLast? with
      | some last =>
          .frame (setTrackWith
            (fun td => { td with coverages := td.coverages ++ [cid] }) h1 last)
            result
      | none => .frame h1 result
  | .coverageStack cids =>
      match result.tracks.getLast? with
      | some last =>
          .frame (setTrackWith
            (fun td => { td with coverages := td.coverages ++ cids }) h1 last)
            result
      | none => .frame h1 result
  | .widgetsPanel ref type_ => .browser h1 self ref type_
  | .other kind => .error (op_err_msg "Frame" (.other kind) "+")

/-- `FrameBase.__mul__`: only `Coverage` and `Feature` are accepted (a
`FrameFeature` is a `Feature` subclass, so it matches the `Feature`
branch); anything else raises `TypeError`. -/
def scale (h : Heap) (self : Frame) (other : Operand) : MulResult :=
  match other with
  | .coverage cid =>
      let hr := copyFrame h self
      .frame (add_cov_to_tracks hr.1 hr.2 cid) hr.2
  | .feature key value =>
      let hr := copyFrame h self
      .frame (add_feature_to_tracks hr.1 hr.2 key value) hr.2
  | .frameFeature key value =>
      let hr := copyFrame h self
      .frame (add_feature_to_tracks hr.1 hr.2 key value) hr.2
  | o => .error (op_err_msg "Frame" o "*")

/-- `frame.properties[k] = v` performed by a caller on a returned frame:
mutate the frame's properties dict in the heap (used to state copy
isolation). -/
def setFrameProp (h : Heap) (f : Frame) (k v : String) : Heap :=
  h.setDict f.propsId (dictSet (h.getDict f.propsId) k v)

/-! ### Dictionary lemmas -/

theorem dictGet_dictSet {α : Type} (d : PyDict α) (k : String) (v : α) (k' : String) :
    dictGet (dictSet d k v) k' = if k' = k then some v else dictGet d k' := by
  induction d with
  | nil =>
      by_cases h : k' = k
      · simp [dictSet, dictGet, h]
      · simp [dictSet, dictGet, h, Ne.symm h]
  | cons p t ih =>
      by_cases hp : p.1 = k
      · by_cases h : k' = k
        · simp [dictSet, dictGet, hp, h]
        · simp [dictSet, dictGet, hp, h, Ne.symm h]
      · by_cases hpk : p.1 = k'
        · have hk : k' ≠ k := fun he => hp (hpk.trans he)
          simp [dictSet, dictGet, hp, hpk, hk]
        · simp [dictSet, dictGet, hp, hpk, ih]

theorem dictSet_fresh {α : Type} (d : PyDict α) (k : String) (v : α)
    (hk : k ∉ d.map Prod.fst) : dictSet d k v = d ++ [(k, v)] := by
  induction d with
  | nil => rfl
  | cons p t ih =>
      simp only [List.map_cons, List.mem_cons] at hk
      push_neg at hk
      simp [dictSet, Ne.symm hk.1, ih hk.2]

theorem dictGet_eq_none {α : Type} (d : PyDict α) (k : String)
    (hk : k ∉ d.map Prod.fst) : dictGet d k = none := by
  induction d with
  | nil => rfl
  | cons p t ih =>
      simp only [List.map_cons, List.mem_cons] at hk
      push_neg at hk
      simp [dictGet, Ne.symm hk.1, ih hk.2]

theorem dictGet_dictUpdate {α : Type} (d e : PyDict α) (k : String)
    (hnd : (e.map Prod.fst).Nodup) :
    dictGet (dictUpdate d e) k = (dictGet e k).orElse (fun _ => dictGet d k) := by
  induction e generalizing d with
  | nil => rfl
  | cons p t ih =>
      simp only [List.map_cons, List.nodup_cons] at hnd
      have step : dictUpdate d (p :: t) = dictUpdate (dictSet d p.1 p.2) t := rfl
      rw [step, ih _ hnd.2]
      by_cases h : k = p.1
      · subst h
        have ht : dictGet t p.1 = none := dictGet_eq_none t p.1 hnd.1
        have h1 : dictGet (dictSet d p.1 p.2) p.1 = some p.2 := by
          rw [dictGet_dictSet]; simp
        have h2 : dictGet (p :: t) p.1 = some p.2 := by
          simp [dictGet]
        rw [ht]
        simp only [h1, h2]
        rfl
      · have hset : dictGet (dictSet d p.1 p.2) k = dictGet d k := by
          rw [dictGet_dictSet]; simp [h]
        have hcons : dictGet (p :: t) k = dictGet t k := by
          simp [dictGet, Ne.symm h]
        rw [hcons]
        simp only [hset]

theorem foldl_dictSet_fresh {α : Type} (data : String × Nat → α)
    (l : List (String × Nat)) (acc : PyDict α)
    (hnd : (l.map Prod.fst).Nodup)
    (hdisj : ∀ p ∈ l, p.1 ∉ acc.map Prod.fst) :
    l.foldl (fun acc p => dictSet acc p.1 (data p)) acc
      = acc ++ l.map (fun p => (p.1, data p)) := by
  induction l generalizing acc with
  | nil => simp
  | cons p t ih =>
      simp only [List.map_cons, List.nodup_cons] at hnd
      rw [List.foldl_cons, dictSet_fresh _ _ _ (hdisj p (by simp)),
        ih _ hnd.2 ?_]
      · simp
      · intro q hq
        simp only [List.map_append, List.mem_append, List.map_cons]
        rintro (hin | hin)
        · exact hdisj q (by simp [hq]) hin
        · simp only [List.map_nil, List.mem_singleton] at hin
          exact hnd.1 (hin ▸ List.mem_map_of_mem Prod.fst hq)

/-! ### Heap lemmas -/

theorem getTrack_setTrack_self (h : Heap) (tid : Nat) (td : TrackData)
    (hlt : tid < h.tracks.length) : (h.setTrack tid td).getTrack tid = td := by
  simp [Heap.setTrack, Heap.getTrack, List.getD_eq_getElem?_getD,
    List.getElem?_set_self, hlt]

theorem getTrack_setTrack_ne (h : Heap) (tid tid' : Nat) (td : TrackData)
    (hne : tid ≠ tid') : (h.setTrack tid td).getTrack tid' = h.getTrack tid' := by
  simp [Heap.setTrack, Heap.getTrack, List.getD_eq_getElem?_getD,
    List.getElem?_set_ne hne]

theorem getDict_setDict_ne (h : Heap) (did did' : Nat) (d : PropMap)
    (hne : did ≠ did') : (h.setDict did d).getDict did' = h.getDict did' := by
  simp [Heap.setDict, Heap.getDict, List.getD_eq_getElem?_getD,
    List.getElem?_set_ne hne]

theorem getDict_setDict_self (h : Heap) (did : Nat) (d : PropMap)
    (hlt : did < h.dicts.length) : (h.setDict did d).getDict did = d := by
  simp [Heap.setDict, Heap.getDict, List.getD_eq_getElem?_getD,
    List.getElem?_set_self, hlt]

theorem getDict_copyFrame_lt (h : Heap) (f : Frame) (i : Nat)
    (hi : i < h.dicts.length) : (copyFrame h f).1.getDict i = h.getDict i := by
  simp [copyFrame, Heap.getDict, List.getD_eq_getElem?_getD, List.getElem?_append, hi]

theorem getDict_copyFrame_new (h : Heap) (f : Frame) :
    (copyFrame h f).1.getDict h.dicts.length = h.getDict f.propsId := by
  simp [copyFrame, Heap.getDict, List.getD_eq_getElem?_getD]

/-! ### Lemmas about loops over all tracks -/

theorem foldl_setTrackWith_dicts (g : TrackData → TrackData)
    (l : List (String × Nat)) (h : Heap) :
    (l.foldl (setTrackWith g) h).dicts = h.dicts := by
  induction l generalizing h with
  | nil => rfl
  | cons p t ih => rw [List.foldl_cons, ih]; rfl

theorem foldl_setTrackWith_length (g : TrackData → TrackData)
    (l : List (String × Nat)) (h : Heap) :
    (l.foldl (setTrackWith g) h).tracks.length = h.tracks.length := by
  induction l generalizing h with
  | nil => rfl
  | cons p t ih =>
      rw [List.foldl_cons, ih]
      simp [setTrackWith, Heap.setTrack]

theorem getTrack_foldl_not_mem (g : TrackData → TrackData)
    (l : List (String × Nat)) (h : Heap) (tid : Nat)
    (htid : tid ∉ l.map Prod.snd) :
    (l.foldl (setTrackWith g) h).getTrack tid = h.getTrack tid := by
  induction l generalizing h with
  | nil => rfl
  | cons p t ih =>
      simp only [List.map_cons, List.mem_cons] at htid
      push_neg at htid
      rw [List.foldl_cons, ih _ htid.2, setTrackWith,
        getTrack_setTrack_ne _ _ _ _ (fun h' => htid.1 h'.symm)]

theorem getTrack_foldl_mem (g : TrackData → TrackData)
    (l : List (String × Nat)) (h : Heap)
    (hnd : (l.map Prod.snd).Nodup)
    (hlt : ∀ p ∈ l, p.2 < h.tracks.length) :
    ∀ p ∈ l, (l.foldl (setTrackWith g) h).getTrack p.2 = g (h.getTrack p.2) := by
  induction l generalizing h with
  | nil => intro p hp; simp at hp
  | cons q t ih =>
      simp only [List.map_cons, List.nodup_cons] at hnd
      intro p hp
      rcases List.mem_cons.mp hp with rfl | hpt
      · rw [List.foldl_cons, getTrack_foldl_not_mem _ _ _ _ hnd.1, setTrackWith,
          getTrack_setTrack_self _ _ _ (hlt p (by simp))]
      · rw [List.foldl_cons]
        have hq2 : q.2 ≠ p.2 := by
          intro he
          exact hnd.1 (he ▸ List.mem_map_of_mem Prod.snd hpt)
        have hlt' : ∀ r ∈ t, r.2 < (setTrackWith g h q).tracks.length := by
          intro r hr
          simpa [setTrackWith, Heap.setTrack] using hlt r (by simp [hr])
        rw [ih _ hnd.2 hlt' p hpt, setTrackWith,
          getTrack_setTrack_ne _ _ _ _ hq2]

/-! ### Lemmas about the Frame+Frame track-append loop -/

theorem foldl_add_track_tracks (l : List (String × Nat)) (f : Frame) :
    ((l.foldl (fun acc p => acc.add_track p.2) f).tracks).map Prod.snd
      = f.tracks.map Prod.snd ++ l.map Prod.snd := by
  induction l generalizing f with
  | nil => simp
  | cons p t ih =>
      rw [List.foldl_cons, ih]
      simp [Frame.add_track]

theorem foldl_add_track_propsId (l : List (String × Nat)) (f : Frame) :
    (l.foldl (fun acc p => acc.add_track p.2) f).propsId = f.propsId := by
  induction l generalizing f with
  | nil => rfl
  | cons p t ih => rw [List.foldl_cons, ih]; rfl

/-! ### Reduction equations for the dispatch branches of the operators -/

theorem combine_track_eq (h : Heap) (L : Frame) (tid : Nat) :
    combine h L (.track tid)
      = .frame (copyFrame h L).1 ((copyFrame h L).2.add_track tid) := rfl

theorem combine_frame_eq (h : Heap) (L R : Frame) :
    combine h L (.frame R)
      = .frame ((copyFrame h L).1.setDict
            (R.tracks.foldl (fun acc p => acc.add_track p.2) (copyFrame h L).2).propsId
            (dictUpdate
              ((copyFrame h L).1.getDict
                (R.tracks.foldl (fun acc p => acc.add_track p.2) (copyFrame h L).2).propsId)
              ((copyFrame h L).1.getDict R.propsId)))
          (R.tracks.foldl (fun acc p => acc.add_track p.2) (copyFrame h L).2) := rfl

theorem combine_feature_eq (h : Heap) (L : Frame) (k v : String) :
    combine h L (.feature k v)
      = match L.tracks.getLast? with
        | some last =>
            .frame (setTrackWith
              (fun td => { td with properties := dictSet td.properties k v })
              (copyFrame h L).1 last) (copyFrame h L).2
        | none => .frame (copyFrame h L).1 (copyFrame h L).2 := rfl

theorem combine_coverage_eq (h : Heap) (L : Frame) (cid : Nat) :
    combine h L (.coverage cid)
      = match L.tracks.getLast? with
        | some last =>
            .frame (setTrackWith
              (fun td => { td with coverages := td.coverages ++ [cid] })
              (copyFrame h L).1 last) (copyFrame h L).2
        | none => .frame (copyFrame h L).1 (copyFrame h L).2 := rfl

theorem combine_coverageStack_eq (h : Heap) (L : Frame) (cids : List Nat) :
    combine h L (.coverageStack cids)
      = match L.tracks.getLast? with
        | some last =>
            .frame (setTrackWith
              (fun td => { td with coverages := td.coverages ++ cids })
              (copyFrame h L).1 last) (copyFrame h L).2
        | none => .frame (copyFrame h L).1 (copyFrame h L).2 := rfl

theorem scale_feature_eq (h : Heap) (L : Frame) (k v : String) :
    scale h L (.feature k v)
      = .frame (add_feature_to_tracks (copyFrame h L).1 (copyFrame h L).2 k v)
          (copyFrame h L).2 := rfl

theorem scale_coverage_eq (h : Heap) (L : Frame) (cid : Nat) :
    scale h L (.coverage cid)
      = .frame (add_cov_to_tracks (copyFrame h L).1 (copyFrame h L).2 cid)
          (copyFrame h L).2 := rfl

/-! ### Concrete inputs used by the witnesses -/

def tdPlain : TrackData := { properties := [], coverages := [], fetchCap := none }

def tdFetch : TrackData :=
  { properties := [], coverages := [], fetchCap := some (fun _ => ["r1"]) }

def grW : GenomeRange := { chrom := "chr1", start := 1000, stop := 2000 }

/-! ### C1 -/

/-- C1: `combine(L, track)` (operator `+`) returns a new Frame and never
mutates the left operand in place: the result holds a fresh `properties`
dict object, the appended track lands after `L`'s tracks, no track object
in the heap is touched, `L`'s `properties` dict is unchanged by the
combination, and mutating the result's `properties` afterwards still
leaves `L`'s `properties` unchanged. -/
theorem combine_track_copy_isolation
    (h : Heap) (L : Frame) (tid : Nat) (k v : String)
    (hL : L.propsId < h.dicts.length) :
    ∃ h1 f, combine h L (.track tid) = .frame h1 f ∧
      f.propsId ≠ L.propsId ∧
      f.tracks.map Prod.snd = L.tracks.map Prod.snd ++ [tid] ∧
      h1.tracks = h.tracks ∧
      h1.getDict L.propsId = h.getDict L.propsId ∧
      (setFrameProp h1 f k v).getDict L.propsId = h.getDict L.propsId := by
  refine ⟨(copyFrame h L).1, (copyFrame h L).2.add_track tid,
    combine_track_eq h L tid, ?_, ?_, rfl, ?_, ?_⟩
  · show h.dicts.length ≠ L.propsId
    exact Ne.symm (Nat.ne_of_lt hL)
  · show (L.tracks ++ [("track_" ++ toString L.nextIdx, tid)]).map Prod.snd
      = L.tracks.map Prod.snd ++ [tid]
    simp
  · exact getDict_copyFrame_lt h L L.propsId hL
  · show ((copyFrame h L).1.setDict h.dicts.length _).getDict L.propsId
      = h.getDict L.propsId
    rw [getDict_setDict_ne _ _ _ _ (Ne.symm (Nat.ne_of_lt hL))]
    exact getDict_copyFrame_lt h L L.propsId hL

def hW1 : Heap := { tracks := [], dicts := [[("title", "t")]] }

def LW1 : Frame := { tracks := [], propsId := 0, current_range := none, nextIdx := 0 }

theorem combine_track_copy_isolation_witness :
    LW1.propsId < hW1.dicts.length ∧
    ∃ h1 f, combine hW1 LW1 (.track 0) = .frame h1 f ∧
      f.propsId ≠ LW1.propsId ∧
      f.tracks.map Prod.snd = LW1.tracks.map Prod.snd ++ [0] ∧
      h1.tracks = hW1.tracks ∧
      h1.getDict LW1.propsId = hW1.getDict LW1.propsId ∧
      (setFrameProp h1 f "color" "red").getDict LW1.propsId
        = hW1.getDict LW1.propsId :=
  ⟨by decide, combine_track_copy_isolation hW1 LW1 0 "color" "red" (by decide)⟩

/-! ### C4 -/

/-- C4: combining a zero-track Frame with a Feature, a Coverage or a
CoverageStack is a silent no-op: the result is a Frame (no error) that
still has zero tracks and whose `properties` content equals the left
operand's. -/
theorem combine_zero_tracks_noop
    (h : Heap) (L : Frame) (k v : String) (cid : Nat) (cids : List Nat)
    (hz : L.tracks = []) :
    combine h L (.feature k v) = .frame (copyFrame h L).1 (copyFrame h L).2 ∧
    combine h L (.coverage cid) = .frame (copyFrame h L).1 (copyFrame h L).2 ∧
    combine h L (.coverageStack cids)
      = .frame (copyFrame h L).1 (copyFrame h L).2 ∧
    (copyFrame h L).2.tracks = [] ∧
    (copyFrame h L).1.getDict (copyFrame h L).2.propsId = h.getDict L.propsId := by
  have hlast : L.tracks.getLast? = none := by rw [hz]; rfl
  refine ⟨?_, ?_, ?_, hz, getDict_copyFrame_new h L⟩
  · rw [combine_feature_eq, hlast]
  · rw [combine_coverage_eq, hlast]
  · rw [combine_coverageStack_eq, hlast]

def hW4 : Heap := { tracks := [], dicts := [[("title", "t")]] }

def LW4 : Frame := { tracks := [], propsId := 0, current_range := none, nextIdx := 0 }

theorem combine_zero_tracks_noop_witness :
    LW4.tracks = [] ∧
    (combine hW4 LW4 (.feature "color" "red")
        = .frame (copyFrame hW4 LW4).1 (copyFrame hW4 LW4).2 ∧
      combine hW4 LW4 (.coverage 7)
        = .frame (copyFrame hW4 LW4).1 (copyFrame hW4 LW4).2 ∧
      combine hW4 LW4 (.coverageStack [1, 2])
        = .frame (copyFrame hW4 LW4).1 (copyFrame hW4 LW4).2 ∧
      (copyFrame hW4 LW4).2.tracks = [] ∧
      (copyFrame hW4 LW4).1.getDict (copyFrame hW4 LW4).2.propsId
        = hW4.getDict LW4.propsId) :=
  ⟨rfl, combine_zero_tracks_noop hW4 LW4 "color" "red" 7 [1, 2] rfl⟩

/-! ### C10 -/

/-- C10: `scale` (operator `*`) on a zero-track Frame with a Feature or a
Coverage succeeds without error and returns a Frame that still has zero
tracks: the every-track application is vacuous, and the heap is left
exactly as the copy step made it. -/
theorem scale_zero_tracks_noop
    (h : Heap) (L : Frame) (k v : String) (cid : Nat)
    (hz : L.tracks = []) :
    scale h L (.feature k v) = .frame (copyFrame h L).1 (copyFrame h L).2 ∧
    scale h L (.coverage cid) = .frame (copyFrame h L).1 (copyFrame h L).2 ∧
    (copyFrame h L).2.tracks = [] := by
  have hfold : ∀ g : TrackData → TrackData,
      L.tracks.foldl (setTrackWith g) (copyFrame h L).1 = (copyFrame h L).1 := by
    intro g; rw [hz]; rfl
  refine ⟨?_, ?_, hz⟩
  · rw [scale_feature_eq]
    show MulResult.frame (L.tracks.foldl (setTrackWith _) (copyFrame h L).1) _
        = _
    rw [hfold]
  · rw [scale_coverage_eq]
    show MulResult.frame (L.tracks.foldl (setTrackWith _) (copyFrame h L).1) _
        = _
    rw [hfold]

theorem scale_zero_tracks_noop_witness :
    LW4.tracks = [] ∧
    (scale hW4 LW4 (.feature "color" "red")
        = .frame (copyFrame hW4 LW4).1 (copyFrame hW4 LW4).2 ∧
      scale hW4 LW4 (.coverage 7)
        = .frame (copyFrame hW4 LW4).1 (copyFrame hW4 LW4).2 ∧
      (copyFrame hW4 LW4).2.tracks = []) :=
  ⟨rfl, scale_zero_tracks_noop hW4 LW4 "color" "red" 7 rfl⟩

/-! ### C5 -/

def hW5 : Heap := { tracks := [], dicts := [[("title", "t")]] }

def LW5 : Frame := { tracks := [], propsId := 0, current_range := none, nextIdx := 0 }

/-- C5 counterexample: on a concrete input, `combine(L, widgetsPanel)` does
return a Browser, but the Frame it wraps is the left operand `L` itself
(the source passes `self` to `Browser`), not the result copy of `L`: the
wrapped frame still references `L`'s original `properties` dict, while the
result copy holds a freshly allocated one, so the two frames differ. -/
theorem combine_widgets_wraps_self_cex :
    combine hW5 LW5 (.widgetsPanel "hg19" "igv")
      = .browser (copyFrame hW5 LW5).1 LW5 "hg19" "igv" ∧
    LW5 ≠ (copyFrame hW5 LW5).2 ∧
    LW5.propsId = 0 ∧ (copyFrame hW5 LW5).2.propsId = 1 :=
  ⟨rfl, by decide, rfl, rfl⟩

/-- C5 (amended): `combine(L, widgetsPanel)` terminates the chain and
returns a Browser — never a Frame — wrapping the left operand `L` itself
(content-identical to the frame built so far, since no mutation precedes
this branch, but sharing `L`'s `properties` dict rather than the result
copy's fresh one), together with `R`'s reference genome and `R`'s
widgets-box type. -/
theorem combine_widgets_returns_browser
    (h : Heap) (L : Frame) (ref type_ : String) :
    combine h L (.widgetsPanel ref type_)
      = .browser (copyFrame h L).1 L ref type_ ∧
    (copyFrame h L).2.tracks = L.tracks ∧
    (copyFrame h L).1.getDict (copyFrame h L).2.propsId = h.getDict L.propsId :=
  ⟨rfl, rfl, getDict_copyFrame_new h L⟩

/-! ### C6 -/

/-- C6: a right operand whose kind is in neither dispatch table makes both
`combine` (operator `+`) and `scale` (operator `*`) fail with an error
naming both operand kinds and the operator, never silently returning a
Frame; for `scale`, Track, Frame, CoverageStack and WidgetsPanel operands
are outside its table and fail the same way. -/
theorem unsupported_operand_raises
    (h : Heap) (L : Frame) (kind : String) (tid : Nat) (R : Frame)
    (cids : List Nat) (ref type_ : String) :
    combine h L (.other kind) = .error (op_err_msg "Frame" (.other kind) "+") ∧
    scale h L (.other kind) = .error (op_err_msg "Frame" (.other kind) "*") ∧
    scale h L (.track tid) = .error (op_err_msg "Frame" (.track tid) "*") ∧
    scale h L (.frame R) = .error (op_err_msg "Frame" (.frame R) "*") ∧
    scale h L (.coverageStack cids)
      = .error (op_err_msg "Frame" (.coverageStack cids) "*") ∧
    scale h L (.widgetsPanel ref type_)
      = .error (op_err_msg "Frame" (.widgetsPanel ref type_) "*") ∧
    combine h L (.other "int")
      = .error "unsupported operand type(s) for +: 'Frame' and 'int'" ∧
    scale h L (.other "int")
      = .error "unsupported operand type(s) for *: 'Frame' and 'int'" :=
  ⟨rfl, rfl, rfl, rfl, rfl, rfl,
    by
      rw [show ("unsupported operand type(s) for +: 'Frame' and 'int'" : String)
          = op_err_msg "Frame" (.other "int") "+" from by decide]
      rfl,
    by
      rw [show ("unsupported operand type(s) for *: 'Frame' and 'int'" : String)
          = op_err_msg "Frame" (.other "int") "*" from by decide]
      rfl⟩

/-! ### C2 -/

/-- C2: on a Frame with at least one track, `combine(L, feature)` applies
`(key, value)` to the properties of the last track (in insertion order)
only: every track before the last keeps its exact state (in particular its
property map), and the Frame's own `properties` dicts — both the result's
and the left operand's — are untouched. -/
theorem combine_feature_targets_last
    (h : Heap) (L : Frame) (k v : String)
    (hne : L.tracks ≠ [])
    (hnd : (L.tracks.map Prod.snd).Nodup)
    (hlast : (L.tracks.getLast hne).2 < h.tracks.length) :
    ∃ h1 f, combine h L (.feature k v) = .frame h1 f ∧
      f.tracks = L.tracks ∧
      (h1.getTrack (L.tracks.getLast hne).2).properties
        = dictSet (h.getTrack (L.tracks.getLast hne).2).properties k v ∧
      (∀ p ∈ L.tracks.dropLast, h1.getTrack p.2 = h.getTrack p.2) ∧
      h1.getDict f.propsId = h.getDict L.propsId ∧
      (∀ i, i < h.dicts.length → h1.getDict i = h.getDict i) := by
  have hlq : L.tracks.getLast? = some (L.tracks.getLast hne) :=
    List.getLast?_eq_getLast L.tracks hne
  refine ⟨setTrackWith
      (fun td => { td with properties := dictSet td.properties k v })
      (copyFrame h L).1 (L.tracks.getLast hne), (copyFrame h L).2,
    ?_, rfl, ?_, ?_, ?_, ?_⟩
  · rw [combine_feature_eq, hlq]
  · have hx : ((copyFrame h L).1.setTrack (L.tracks.getLast hne).2
        ((fun td => { td with properties := dictSet td.properties k v })
          ((copyFrame h L).1.getTrack (L.tracks.getLast hne).2))).getTrack
          (L.tracks.getLast hne).2
        = (fun td => { td with properties := dictSet td.properties k v })
            ((copyFrame h L).1.getTrack (L.tracks.getLast hne).2) :=
      getTrack_setTrack_self _ _ _ (by exact hlast)
    exact congrArg TrackData.properties hx
  · intro p hp
    have hsplit : L.tracks.dropLast ++ [L.tracks.getLast hne] = L.tracks :=
      List.dropLast_append_getLast hne
    have hnd' : ((L.tracks.dropLast ++ [L.tracks.getLast hne]).map Prod.snd).Nodup := by
      rw [hsplit]; exact hnd
    rw [List.map_append] at hnd'
    have hdisj := List.disjoint_of_nodup_append hnd'
    have hpne : (L.tracks.getLast hne).2 ≠ p.2 := by
      intro he
      exact hdisj (List.mem_map_of_mem Prod.snd hp) (by simp [he])
    exact getTrack_setTrack_ne _ _ _ _ hpne
  · exact getDict_copyFrame_new h L
  · intro i hi
    exact getDict_copyFrame_lt h L i hi

def hW2 : Heap :=
  { tracks := [tdPlain, tdPlain], dicts := [[("title", "t")]] }

def LW2 : Frame :=
  { tracks := [("track_0", 0), ("track_1", 1)], propsId := 0,
    current_range := none, nextIdx := 2 }

theorem combine_feature_targets_last_witness :
    LW2.tracks ≠ [] ∧
    ∃ h1 f, combine hW2 LW2 (.feature "color" "red") = .frame h1 f ∧
      f.tracks = LW2.tracks ∧
      (h1.getTrack (LW2.tracks.getLast (by decide)).2).properties
        = dictSet (hW2.getTrack (LW2.tracks.getLast (by decide)).2).properties
            "color" "red" ∧
      (∀ p ∈ LW2.tracks.dropLast, h1.getTrack p.2 = hW2.getTrack p.2) ∧
      h1.getDict f.propsId = hW2.getDict LW2.propsId ∧
      (∀ i, i < hW2.dicts.length → h1.getDict i = hW2.getDict i) :=
  ⟨by decide,
    combine_feature_targets_last hW2 LW2 "color" "red" (by decide) (by decide)
      (by decide)⟩

/-! ### C3 -/

/-- C3: `scale` (operator `*`) with a Coverage or a Feature right operand
returns a copy of `L` (same track entries) and applies the operand to
every track of `L`, not just the last: the Coverage id is appended to
every track's `coverages` list, and the Feature's `(key, value)` is set
in every track's `properties`. -/
theorem scale_applies_to_all_tracks
    (h : Heap) (L : Frame) (k v : String) (cid : Nat)
    (hnd : (L.tracks.map Prod.snd).Nodup)
    (hlt : ∀ p ∈ L.tracks, p.2 < h.tracks.length) :
    (∃ h1 f, scale h L (.feature k v) = .frame h1 f ∧
      f.tracks = L.tracks ∧
      ∀ p ∈ L.tracks,
        (h1.getTrack p.2).properties = dictSet (h.getTrack p.2).properties k v ∧
        (h1.getTrack p.2).coverages = (h.getTrack p.2).coverages) ∧
    (∃ h2 f2, scale h L (.coverage cid) = .frame h2 f2 ∧
      f2.tracks = L.tracks ∧
      ∀ p ∈ L.tracks,
        (h2.getTrack p.2).coverages = (h.getTrack p.2).coverages ++ [cid] ∧
        (h2.getTrack p.2).properties = (h.getTrack p.2).properties) := by
  constructor
  · refine ⟨add_feature_to_tracks (copyFrame h L).1 (copyFrame h L).2 k v,
      (copyFrame h L).2, scale_feature_eq h L k v, rfl, ?_⟩
    intro p hp
    have hge : (add_feature_to_tracks (copyFrame h L).1 (copyFrame h L).2 k v).getTrack p.2
        = { h.getTrack p.2 with properties := dictSet (h.getTrack p.2).properties k v } :=
      getTrack_foldl_mem
        (fun td => { td with properties := dictSet td.properties k v })
        L.tracks (copyFrame h L).1 hnd (by exact hlt) p hp
    rw [hge]
    exact ⟨rfl, rfl⟩
  · refine ⟨add_cov_to_tracks (copyFrame h L).1 (copyFrame h L).2 cid,
      (copyFrame h L).2, scale_coverage_eq h L cid, rfl, ?_⟩
    intro p hp
    have hge : (add_cov_to_tracks (copyFrame h L).1 (copyFrame h L).2 cid).getTrack p.2
        = { h.getTrack p.2 with coverages := (h.getTrack p.2).coverages ++ [cid] } :=
      getTrack_foldl_mem
        (fun td => { td with coverages := td.coverages ++ [cid] })
        L.tracks (copyFrame h L).1 hnd (by exact hlt) p hp
    rw [hge]
    exact ⟨rfl, rfl⟩

theorem scale_applies_to_all_tracks_witness :
    (LW2.tracks.map Prod.snd).Nodup ∧
    ((∃ h1 f, scale hW2 LW2 (.feature "color" "red") = .frame h1 f ∧
      f.tracks = LW2.tracks ∧
      ∀ p ∈ LW2.tracks,
        (h1.getTrack p.2).properties
          = dictSet (hW2.getTrack p.2).properties "color" "red" ∧
        (h1.getTrack p.2).coverages = (hW2.getTrack p.2).coverages) ∧
    (∃ h2 f2, scale hW2 LW2 (.coverage 7) = .frame h2 f2 ∧
      f2.tracks = LW2.tracks ∧
      ∀ p ∈ LW2.tracks,
        (h2.getTrack p.2).coverages = (hW2.getTrack p.2).coverages ++ [7] ∧
        (h2.getTrack p.2).properties = (hW2.getTrack p.2).properties)) :=
  ⟨by decide,
    scale_applies_to_all_tracks hW2 LW2 "color" "red" 7 (by decide) (by decide)⟩

/-! ### C7 -/

/-- C7: for every Frame and every resolvable range, `fetch_data` visits
each track in the Frame's insertion order, calls the track's fetch
capability over the resolved range when the track has one and substitutes
the empty sequence when it does not; the returned ordered mapping mirrors
the Frame's track insertion order. -/
theorem fetch_data_order_and_defaults
    (h : Heap) (f : Frame) (r : Option GenomeRange) (gr : GenomeRange)
    (hres : resolveRange f r = some gr)
    (hnd : (f.tracks.map Prod.fst).Nodup) :
    fetch_data h f r = .ok (f.tracks.map (fun p =>
      (p.1, match (h.getTrack p.2).fetchCap with
            | some fetch => fetch gr
            | none => []))) := by
  unfold fetch_data
  rw [hres]
  refine congrArg Except.ok ?_
  have hfold := foldl_dictSet_fresh
    (fun p => match (h.getTrack p.2).fetchCap with
              | some fetch => fetch gr
              | none => [])
    f.tracks [] hnd (by simp)
  simpa using hfold

def hW7 : Heap := { tracks := [tdPlain, tdFetch], dicts := [[]] }

def fW7 : Frame :=
  { tracks := [("A", 0), ("B", 1)], propsId := 0, current_range := none,
    nextIdx := 2 }

theorem fetch_data_order_and_defaults_witness :
    fetch_data hW7 fW7 (some grW) = .ok [("A", []), ("B", ["r1"])] := by
  have hx := fetch_data_order_and_defaults hW7 fW7 (some grW) grW rfl (by decide)
  exact hx

/-! ### C8 -/

/-- C8: `fetch_data` with the range argument omitted resolves the range to
the Frame's `current_range`; it fails if and only if both the argument and
`current_range` are absent, and when it fails the error (the missing-range
message) is surfaced without any fetch being attempted — the outcome does
not depend on the heap of track objects at all. -/
theorem fetch_data_missing_range
    (h h' : Heap) (f : Frame) (r : Option GenomeRange) :
    ((∃ e, fetch_data h f r = .error e) ↔ r = none ∧ f.current_range = none) ∧
    (r = none ∧ f.current_range = none →
      fetch_data h f r = .error missingRangeMsg ∧
      fetch_data h' f r = fetch_data h f r) ∧
    fetch_data h f none = fetch_data h f f.current_range := by
  refine ⟨⟨?_, ?_⟩, ?_, ?_⟩
  · intro ⟨e, he⟩
    rcases r with _ | g
    · rcases hc : f.current_range with _ | g'
      · exact ⟨rfl, rfl⟩
      · rw [show fetch_data h f none
            = .ok (f.tracks.foldl (fun acc p => dictSet acc p.1
                (match (h.getTrack p.2).fetchCap with
                 | some fetch => fetch g'
                 | none => [])) []) from by unfold fetch_data resolveRange; rw [hc]]
          at he
        exact absurd he (by simp)
    · rw [show fetch_data h f (some g)
          = .ok (f.tracks.foldl (fun acc p => dictSet acc p.1
              (match (h.getTrack p.2).fetchCap with
               | some fetch => fetch g
               | none => [])) []) from rfl] at he
      exact absurd he (by simp)
  · rintro ⟨rfl, hc⟩
    refine ⟨missingRangeMsg, ?_⟩
    unfold fetch_data resolveRange
    rw [hc]
  · rintro ⟨rfl, hc⟩
    constructor
    · unfold fetch_data resolveRange
      rw [hc]
    · unfold fetch_data resolveRange
      rw [hc]
  · rcases hc : f.current_range with _ | g
    · rfl
    · unfold fetch_data resolveRange
      rw [hc]

def fW8 : Frame :=
  { tracks := [("A", 0)], propsId := 0, current_range := none, nextIdx := 1 }

theorem fetch_data_missing_range_witness :
    fetch_data hW7 fW8 none = .error missingRangeMsg ∧
    fetch_data hW2 fW8 none = fetch_data hW7 fW8 none :=
  (fetch_data_missing_range hW7 hW2 fW8 none).2.1 ⟨rfl, rfl⟩

/-! ### C9 -/

/-- C9: `combine(L, R)` for Frames `L` and `R` appends every track of `R`,
in `R`'s insertion order, after `L`'s existing tracks, and merges `R`'s
`properties` into the result's `properties` with the right operand winning
on key collision (silent overwrite): the merged dict is `dictUpdate` of the
two property dicts, and every lookup prefers `R`'s binding. -/
theorem combine_frame_merge
    (h : Heap) (L R : Frame)
    (hR : R.propsId < h.dicts.length)
    (hkeys : ((h.getDict R.propsId).map Prod.fst).Nodup) :
    ∃ h2 f, combine h L (.frame R) = .frame h2 f ∧
      f.tracks.map Prod.snd = L.tracks.map Prod.snd ++ R.tracks.map Prod.snd ∧
      h2.getDict f.propsId
        = dictUpdate (h.getDict L.propsId) (h.getDict R.propsId) ∧
      (∀ key, dictGet (h2.getDict f.propsId) key
        = (dictGet (h.getDict R.propsId) key).orElse
            (fun _ => dictGet (h.getDict L.propsId) key)) := by
  have hfp : (R.tracks.foldl (fun acc p => acc.add_track p.2) (copyFrame h L).2).propsId
      = h.dicts.length :=
    foldl_add_track_propsId R.tracks (copyFrame h L).2
  have hlen : (copyFrame h L).1.dicts.length = h.dicts.length + 1 := by
    simp [copyFrame]
  have hgetR : (copyFrame h L).1.getDict R.propsId = h.getDict R.propsId :=
    getDict_copyFrame_lt h L R.propsId hR
  have hgetNew : (copyFrame h L).1.getDict h.dicts.length = h.getDict L.propsId :=
    getDict_copyFrame_new h L
  refine ⟨_, _, combine_frame_eq h L R, ?_, ?_, ?_⟩
  · have := foldl_add_track_tracks R.tracks (copyFrame h L).2
    simpa using this
  · rw [hfp, hgetR, hgetNew]
    exact getDict_setDict_self (copyFrame h L).1 h.dicts.length _ (by omega)
  · intro key
    rw [hfp, hgetR, hgetNew,
      getDict_setDict_self (copyFrame h L).1 h.dicts.length _ (by omega)]
    exact dictGet_dictUpdate _ _ key hkeys

def hW9 : Heap :=
  { tracks := [tdPlain, tdPlain],
    dicts := [[("title", "left"), ("width", "10")], [("title", "right")]] }

def LW9 : Frame :=
  { tracks := [("track_0", 0)], propsId := 0, current_range := none, nextIdx := 1 }

def RW9 : Frame :=
  { tracks := [("track_0", 1)], propsId := 1, current_range := none, nextIdx := 1 }

theorem combine_frame_merge_witness :
    RW9.propsId < hW9.dicts.length ∧
    ∃ h2 f, combine hW9 LW9 (.frame RW9) = .frame h2 f ∧
      f.tracks.map Prod.snd
        = LW9.tracks.map Prod.snd ++ RW9.tracks.map Prod.snd ∧
      h2.getDict f.propsId
        = dictUpdate (hW9.getDict LW9.propsId) (hW9.getDict RW9.propsId) ∧
      (∀ key, dictGet (h2.getDict f.propsId) key
        = (dictGet (hW9.getDict RW9.propsId) key).orElse
            (fun _ => dictGet (hW9.getDict LW9.propsId) key)) :=
  ⟨by decide, combine_frame_merge hW9 LW9 RW9 (by decide) (by decide)⟩

end CoolBox
